import Mathlib

/-!
Verification of the BatteryVitals real-time battery metrics engine.

Shallow embedding of `src/lib/utils.ts` (metric computations, cutoff policy,
throttled real-time persistence) and `src/hooks/use-port-data.ts` (stale-session
monitor and finalization gating).

Modelling conventions:
* JavaScript numbers are embedded as `ℚ`; a value that is `NaN` in the source
  (an unparseable timestamp, voltage or current) is embedded as `none` of an
  `Option` type.  Log values are taken at the level declared by the repository
  type `LogEntry` (`voltage : number`, `current : number`), so the
  `parseFloat`-versus-`Number` distinction for string-typed values collapses.
* A `Record<string, LogEntry>` is embedded as a list of entries in the
  enumeration order `Object.entries` produces; the key string is represented by
  its parsed timestamp (`parseInt`, `none` when the parse yields `NaN`).
* The ECMAScript stable `Array.prototype.sort` with comparator
  `(a, b) => a.timestamp - b.timestamp` is embedded as a stable insertion sort;
  for a consistent comparator (all timestamps parsed) the two agree on every
  input.  When the comparator returns `NaN` the embedding treats the pair as
  unordered (kept in relative order), matching the treatment of a zero return.
-/

set_option maxRecDepth 2000

namespace BatteryVitals

/-- Stable insertion of `x` into `l`: `x` is placed before the first element
`y` with `le x y`.  With `le` the non-strict key order this is the stable
placement used by the ECMAScript sort. -/
def insLE {α : Type} (le : α → α → Bool) (x : α) : List α → List α
  | [] => [x]
  | y :: ys => if le x y then x :: y :: ys else y :: insLE le x ys

/-- Stable insertion sort with comparator `le`. -/
def isort {α : Type} (le : α → α → Bool) : List α → List α
  | [] => []
  | x :: xs => insLE le x (isort le xs)

theorem insLE_perm {α : Type} (le : α → α → Bool) (x : α) (l : List α) :
    List.Perm (insLE le x l) (x :: l) := by
  induction l with
  | nil => simp [insLE]
  | cons y ys ih =>
    simp only [insLE]
    by_cases h : le x y = true
    · simp [h]
    · simp only [h, if_false]
      exact (ih.cons y).trans (List.Perm.swap x y ys)

theorem isort_perm {α : Type} (le : α → α → Bool) (l : List α) :
    List.Perm (isort le l) l := by
  induction l with
  | nil => simp [isort]
  | cons x xs ih =>
    exact (insLE_perm le x (isort le xs)).trans (ih.cons x)

theorem mem_isort {α : Type} {le : α → α → Bool} {a : α} {l : List α} :
    a ∈ isort le l ↔ a ∈ l := (isort_perm le l).mem_iff

theorem mem_insLE {α : Type} {le : α → α → Bool} {a x : α} {l : List α} :
    a ∈ insLE le x l ↔ a = x ∨ a ∈ l := by
  rw [(insLE_perm le x l).mem_iff]; simp

/-- Pairwise order of a stable insertion, assuming totality and transitivity
of the comparator on the elements involved. -/
theorem pairwise_insLE {α : Type} (le : α → α → Bool) (x : α) (l : List α)
    (htot : ∀ b ∈ l, le x b = true ∨ le b x = true)
    (htr : ∀ b ∈ l, ∀ c ∈ l, le x b = true → le b c = true → le x c = true)
    (hp : l.Pairwise (fun a b => le a b = true)) :
    (insLE le x l).Pairwise (fun a b => le a b = true) := by
  induction l with
  | nil => simp [insLE]
  | cons y ys ih =>
    rcases List.pairwise_cons.mp hp with ⟨hy, hys⟩
    simp only [insLE]
    by_cases h : le x y = true
    · simp only [h, if_true]
      refine List.pairwise_cons.mpr ⟨?_, hp⟩
      intro b hb
      rcases List.mem_cons.mp hb with hb1 | hb1
      · rw [hb1]; exact h
      · exact htr y (by simp) b (by simp [hb1]) h (hy b hb1)
    · simp only [h, if_false]
      refine List.pairwise_cons.mpr ⟨?_, ?_⟩
      · intro b hb
        rcases mem_insLE.mp hb with hb | hb
        · subst hb
          rcases htot y (by simp) with h1 | h1
          · exact absurd h1 h
          · exact h1
        · exact hy b hb
      · exact ih (fun b hb => htot b (by simp [hb]))
          (fun b hb c hc => htr b (by simp [hb]) c (by simp [hc])) hys

theorem pairwise_isort {α : Type} (le : α → α → Bool) (l : List α)
    (htot : ∀ a ∈ l, ∀ b ∈ l, le a b = true ∨ le b a = true)
    (htr : ∀ a ∈ l, ∀ b ∈ l, ∀ c ∈ l,
      le a b = true → le b c = true → le a c = true) :
    (isort le l).Pairwise (fun a b => le a b = true) := by
  induction l with
  | nil => simp [isort]
  | cons x xs ih =>
    simp only [isort]
    have hsub : ∀ a ∈ isort le xs, a ∈ x :: xs := by
      intro a ha; exact List.mem_cons_of_mem x (mem_isort.mp ha)
    exact pairwise_insLE le x (isort le xs)
      (fun b hb => htot x (by simp) b (hsub b hb))
      (fun b hb c hc => htr x (by simp) b (hsub b hb) c (hsub c hc))
      (ih (fun a ha b hb => htot a (by simp [ha]) b (by simp [hb]))
          (fun a ha b hb c hc =>
            htr a (by simp [ha]) b (by simp [hb]) c (by simp [hc])))

/-- Two pairwise-ordered lists that are permutations of each other are equal,
given antisymmetry of the order on the elements involved. -/
theorem eq_of_perm_of_pairwise {α : Type} {R : α → α → Prop} :
    ∀ {l1 l2 : List α}, List.Perm l1 l2 → l1.Pairwise R → l2.Pairwise R →
    (∀ a ∈ l1, ∀ b ∈ l1, R a b → R b a → a = b) → l1 = l2
  | [], l2, h, _, _, _ => (h.nil_eq).symm ▸ rfl
  | x :: xs, [], h, _, _, _ => absurd h.length_eq (by simp)
  | x :: xs, y :: ys, h, p1, p2, hanti => by
    rcases List.pairwise_cons.mp p1 with ⟨hx, pxs⟩
    rcases List.pairwise_cons.mp p2 with ⟨hy, pys⟩
    have hxy : x = y := by
      have hxmem : x ∈ y :: ys := h.mem_iff.mp (by simp)
      rcases List.mem_cons.mp hxmem with h1 | h1
      · exact h1
      · have hymem : y ∈ x :: xs := h.mem_iff.mpr (by simp)
        rcases List.mem_cons.mp hymem with h2 | h2
        · exact h2.symm
        · exact hanti x (by simp) y (by simp [h2]) (hx y h2) (hy x h1)
    subst hxy
    have htail : List.Perm xs ys := h.cons_inv
    have hrec : xs = ys :=
      eq_of_perm_of_pairwise htail pxs pys
        (fun a ha b hb => hanti a (by simp [ha]) b (by simp [hb]))
    rw [hrec]

/-- Boolean test that `p` is a leading segment of `s` (character lists). -/
def prefOf : List Char → List Char → Bool
  | [], _ => true
  | _ :: _, [] => false
  | a :: as, b :: bs => a = b && prefOf as bs

/-- Boolean substring test, modelling `String.prototype.includes`. -/
def subOf (p : List Char) : List Char → Bool
  | [] => p.isEmpty
  | c :: rest => prefOf p (c :: rest) || subOf p rest

/-- Lower-cased character list of a label, modelling `toLowerCase` on the
ASCII labels the code compares against. -/
def jsLower (s : String) : List Char := s.toList.map Char.toLower

/-- One raw entry of a session's `logs` record: the key's parsed timestamp
(`parseInt`, `none` for `NaN`) and the entry's voltage and current as numbers
(`none` for `NaN`). -/
structure RawEntry where
  ts : Option ℤ
  voltage : Option ℚ
  current : Option ℚ
deriving DecidableEq

/-- A fully parsed log sample (all three fields finite). -/
structure Sample where
  ts : ℤ
  voltage : ℚ
  current : ℚ
deriving DecidableEq

/-- The projection `{ timestamp, voltage }` used by the SOC branch of
`calculateBatteryMetrics` (no validity filter). -/
structure VEntry where
  ts : Option ℤ
  v : Option ℚ
deriving DecidableEq

def RawEntry.toV (e : RawEntry) : VEntry := ⟨e.ts, e.voltage⟩

/-- The filter step shared by the capacity calculators: keep an entry only
when timestamp, voltage and current all parsed. -/
def parseEntry (e : RawEntry) : Option Sample :=
  match e.ts, e.voltage, e.current with
  | some t, some v, some c => some ⟨t, v, c⟩
  | _, _, _ => none

def parseEntries (l : List RawEntry) : List Sample := l.filterMap parseEntry

/-- Comparator of the sort on fully parsed samples. -/
def sampleLE (a b : Sample) : Bool := a.ts ≤ b.ts

/-- Comparator modelling `(a, b) => a.timestamp - b.timestamp` on entries whose
timestamp may be `NaN`: a `NaN` comparison is treated as "unordered" (the
stable sort keeps the relative order), so `x` may pass `y` only when both
timestamps are numbers and `x`'s is larger. -/
def vLE (a b : VEntry) : Bool :=
  match a.ts, b.ts with
  | some x, some y => x ≤ y
  | _, _ => true

/-- Same comparator on raw `{ timestamp, voltage, current }` triples, used by
`saveFinalBatteryMetrics`. -/
def rawLE (a b : RawEntry) : Bool :=
  match a.ts, b.ts with
  | some x, some y => x ≤ y
  | _, _ => true

def sortSamples (l : List Sample) : List Sample := isort sampleLE l

def sortV (l : List VEntry) : List VEntry := isort vLE l

def sortRaw (l : List RawEntry) : List RawEntry := isort rawLE l

/-- `x || 0` applied to a possibly-`NaN` number (`NaN` and `0` are falsy). -/
def jsOr0 (o : Option ℚ) : ℚ := o.getD 0

/-- Truthiness test of the `batteryType` argument: `undefined`, `null` and the
empty string are falsy in `if (!batteryType)`. -/
def btFalsy : Option String → Bool
  | none => true
  | some s => s = ""

/-- Lithium branch condition of `getCutoffVoltage`:
`type.includes('lipo') || type.includes('li-ion')` on the lower-cased label. -/
def hasLithium (s : String) : Bool :=
  subOf "lipo".toList (jsLower s) || subOf "li-ion".toList (jsLower s)

/-- Lead-acid branch condition of `getCutoffVoltage`:
`type.includes('lead') || type.includes('acid')` on the lower-cased label. -/
def hasLeadAcid (s : String) : Bool :=
  subOf "lead".toList (jsLower s) || subOf "acid".toList (jsLower s)

/-- Nickel branch condition of `getCutoffVoltage`:
`type.includes('nimh') || type.includes('nicd')` on the lower-cased label. -/
def hasNickel (s : String) : Bool :=
  subOf "nimh".toList (jsLower s) || subOf "nicd".toList (jsLower s)

/-- `getCutoffVoltage` from `src/lib/utils.ts`: case-insensitive substring
classification of the battery-type label into a cutoff voltage. -/
def getCutoffVoltage (batteryType : Option String) : ℚ :=
  if btFalsy batteryType then 3
  else
    let t := batteryType.getD ""
    if hasLithium t then 3
    else if hasLeadAcid t then 21 / 2
    else if hasNickel t then 9 / 10
    else 3

/-- `calculateSOC` from `src/lib/utils.ts`. -/
def calculateSOC (currentVoltage startVoltage cutoffVoltage : ℚ) : ℚ :=
  if startVoltage ≤ cutoffVoltage then 0
  else if currentVoltage ≤ cutoffVoltage then 0
  else
    let voltageRange := startVoltage - cutoffVoltage
    let currentVoltageDrop := startVoltage - currentVoltage
    max 0 (min 100 ((voltageRange - currentVoltageDrop) / voltageRange * 100))

/-- `calculateSOH` from `src/lib/utils.ts`. -/
def calculateSOH (measuredCapacity ratedCapacity : ℚ) : ℚ :=
  if ratedCapacity ≤ 0 then 0 else measuredCapacity / ratedCapacity * 100

/-- `calculateRemainingCapacity` from `src/lib/utils.ts`. -/
def calculateRemainingCapacity (totalCapacity dischargedCapacity : ℚ) : ℚ :=
  max 0 (totalCapacity - dischargedCapacity)

/-- The cutoff truncation loop shared by the capacity calculators: the series
is cut at the first sample (in time order) whose voltage is at or below the
cutoff, keeping that sample; when no sample reaches the cutoff the whole
series is kept (`cutoffIndex` defaults to the last index). -/
def cutoffTruncate (cutoffVoltage : ℚ) : List Sample → List Sample
  | [] => []
  | x :: xs =>
    if x.voltage ≤ cutoffVoltage then [x] else x :: cutoffTruncate cutoffVoltage xs

/-- One interval's contribution to the trapezoidal integral: skipped (0) when
the timestamps are not strictly increasing, otherwise mean absolute current
times the interval length in hours.  In `ℚ` the `isFinite` and `≥ 0` guards of
the source always hold for an interval with increasing timestamps. -/
def trapTerm (prev curr : Sample) : ℚ :=
  if prev.ts < curr.ts then
    (|prev.current| + |curr.current|) / 2 * ((curr.ts - prev.ts : ℤ) / (1000 * 60 * 60) : ℚ)
  else 0

/-- The trapezoidal accumulation loop over consecutive samples. -/
def trapSum : List Sample → ℚ
  | prev :: curr :: rest => trapTerm prev curr + trapSum (curr :: rest)
  | _ => 0

/-- `validIntervals` counter of `calculateMeasuredCapacity`: the number of
consecutive pairs with strictly increasing timestamps (in `ℚ` the finiteness
and non-negativity guards always pass for such a pair). -/
def countValidIntervals : List Sample → ℕ
  | prev :: curr :: rest =>
    (if prev.ts < curr.ts then 1 else 0) + countValidIntervals (curr :: rest)
  | _ => 0

/-- `calculateDischargedCapacity` from `src/lib/utils.ts`. -/
def calculateDischargedCapacity (logs : List RawEntry) (cutoffVoltage : ℚ) : ℚ :=
  if logs.length < 2 then 0
  else
    let logEntries := sortSamples (parseEntries logs)
    if logEntries.length < 2 then 0
    else
      let validLogs := cutoffTruncate cutoffVoltage logEntries
      if validLogs.length < 2 then 0
      else trapSum validLogs

/-- Declared operating mode of a session (`type` field). -/
inductive SessionType
  | charging
  | discharging
  | resting
deriving DecidableEq

/-- Lifecycle state of a session (`status` field). -/
inductive SessionStatus
  | charging
  | discharging
  | completed
  | error
deriving DecidableEq

/-- The session fields the monitor and the calculators read.  `ratedCapacity`
and `batteryType` are optional because the source reads possibly-unset store
fields. -/
structure Session where
  startTime : ℤ
  status : SessionStatus
  type : SessionType
  batteryType : Option String
  ratedCapacity : Option ℚ
  logs : List RawEntry
deriving DecidableEq

/-- `calculateMeasuredCapacity` from `src/lib/utils.ts`: the discharged-to-
cutoff trapezoidal integral guarded by the extra acceptance checks of that
function (discharge session, voltage decrease of at least 0.1 V over the
truncated window, at least one strictly increasing interval). -/
def calculateMeasuredCapacity (session : Session) (cutoffVoltage : ℚ) : ℚ :=
  if session.logs.length = 0 then 0
  else if session.type ≠ SessionType.discharging then 0
  else
    let logEntries := sortSamples (parseEntries session.logs)
    if logEntries.length < 2 then 0
    else
      let validLogs := cutoffTruncate cutoffVoltage logEntries
      if validLogs.length < 2 then 0
      else
        let firstLog := validLogs.headD ⟨0, 0, 0⟩
        let lastLog := validLogs.getLastD ⟨0, 0, 0⟩
        let voltageDecrease := firstLog.voltage - lastLog.voltage
        if voltageDecrease < 1 / 10 then 0
        else
          let totalCapacity := trapSum validLogs
          if totalCapacity < 0 then 0
          else if countValidIntervals validLogs = 0 then 0
          else totalCapacity

/-- The metric record returned by `calculateBatteryMetrics`. -/
structure Metrics where
  dischargedCapacity : ℚ
  soc : ℚ
  remainingCapacity : ℚ
  measuredCapacity : ℚ
  soh : ℚ
deriving DecidableEq

def zeroMetrics : Metrics := ⟨0, 0, 0, 0, 0⟩

/-- `calculateBatteryMetrics` from `src/lib/utils.ts`.  Note that the zero
gate tests the raw key count of the record (`Object.keys(logs).length < 2`),
and that the SOC branch sorts the unfiltered `{timestamp, voltage}`
projections of all entries and reads the first/last voltage with `|| 0`. -/
def calculateBatteryMetrics (logs : List RawEntry) (batteryType : Option String)
    (ratedCapacity : ℚ) : Metrics :=
  if btFalsy batteryType || logs.length < 2 then zeroMetrics
  else
    let cutoffVoltage := getCutoffVoltage batteryType
    let dischargedCapacity := calculateDischargedCapacity logs cutoffVoltage
    let logEntries := sortV (logs.map RawEntry.toV)
    let startVoltage := jsOr0 ((logEntries.headD ⟨none, none⟩).v)
    let currentVoltage := jsOr0 ((logEntries.getLastD ⟨none, none⟩).v)
    let soc := calculateSOC currentVoltage startVoltage cutoffVoltage
    let remainingCapacity := calculateRemainingCapacity ratedCapacity dischargedCapacity
    let measuredCapacity := dischargedCapacity
    let soh := if 0 < ratedCapacity then measuredCapacity / ratedCapacity * 100 else 0
    ⟨dischargedCapacity, soc, remainingCapacity, measuredCapacity, soh⟩

/-- The `final*` numeric fields written by `saveFinalBatteryMetrics`. -/
structure FinalFields where
  finalVoltage : ℚ
  finalCurrent : ℚ
  finalDischargedCapacity : ℚ
  finalMeasuredCapacity : ℚ
  finalSOH : ℚ
  finalSOC : ℚ
deriving DecidableEq

/-- The numeric payload assembled by `saveFinalBatteryMetrics` in
`src/lib/utils.ts`: metrics from `calculateBatteryMetrics` plus the voltage
and current of the last entry of the timestamp-sorted raw series (`|| 0`
defaults). -/
def saveFinalData (logs : List RawEntry) (batteryType : Option String)
    (ratedCapacity : ℚ) : FinalFields :=
  let metrics := calculateBatteryMetrics logs batteryType ratedCapacity
  let logEntries := sortRaw logs
  let finalVoltage := jsOr0 ((logEntries.getLastD ⟨none, none, none⟩).voltage)
  let finalCurrent := jsOr0 ((logEntries.getLastD ⟨none, none, none⟩).current)
  ⟨finalVoltage, finalCurrent, metrics.dischargedCapacity,
    metrics.measuredCapacity, metrics.soh, metrics.soc⟩

/-- The module-level throttle map of `src/lib/utils.ts`
(`updateThrottleMap : Map<string, number>`), embedded as an association list
in which the most recent `set` for a key shadows older entries. -/
def ThrottleMap := List (String × ℤ)

/-- `updateThrottleMap.get(key) || 0`. -/
def tmGet (m : ThrottleMap) (key : String) : ℤ :=
  match m.find? (fun p => p.1 = key) with
  | some p => p.2
  | none => 0

/-- `updateThrottleMap.set(key, v)`. -/
def tmSet (m : ThrottleMap) (key : String) (v : ℤ) : ThrottleMap := (key, v) :: m

/-- `THROTTLE_INTERVAL` (3 seconds) from `src/lib/utils.ts`. -/
def THROTTLE_INTERVAL : ℤ := 3000

/-- The store payload of one real-time update. -/
structure RTWrite where
  realTimeDischargedCapacity : ℚ
  realTimeSOC : ℚ
  realTimeSOH : ℚ
  realTimeRemainingCapacity : ℚ
  lastUpdated : ℤ
deriving DecidableEq

/-- Observable outcome of one `updateRealTimeBatteryMetrics` invocation:
dropped by the throttle, one successful store write, or a store write that
raised (the catch block rethrows after logging). -/
inductive RTOutcome
  | throttled
  | written (w : RTWrite)
  | failed
deriving DecidableEq

/-- `updateRealTimeBatteryMetrics` from `src/lib/utils.ts`.  `now` is the
`Date.now()` reading, and `storeOk` tells whether the awaited store update
succeeds.  Mirroring the source order, the throttle timestamp is recorded
before the store write is attempted. -/
def updateRealTimeBatteryMetrics (m : ThrottleMap) (portId sessionId : String)
    (logs : List RawEntry) (batteryType : Option String) (ratedCapacity : ℚ)
    (now : ℤ) (storeOk : Bool) : ThrottleMap × RTOutcome :=
  let throttleKey := portId ++ "_" ++ sessionId
  let lastUpdate := tmGet m throttleKey
  if now - lastUpdate < THROTTLE_INTERVAL then (m, RTOutcome.throttled)
  else
    let m2 := tmSet m throttleKey now
    if storeOk then
      let metrics := calculateBatteryMetrics logs batteryType ratedCapacity
      (m2, RTOutcome.written ⟨metrics.dischargedCapacity, metrics.soc,
        metrics.soh, metrics.remainingCapacity, now⟩)
    else (m2, RTOutcome.failed)

/-- `STALE_SESSION_TIMEOUT` (5 minutes) from `src/hooks/use-port-data.ts`. -/
def STALE_SESSION_TIMEOUT : ℤ := 5 * 60 * 1000

/-- `canCalculateFinalMetrics` from `src/hooks/use-port-data.ts`.  The
`session.ratedCapacity && session.ratedCapacity > 0` truthiness chain reduces
to the capacity being present and positive. -/
def canCalculateFinalMetrics (s : Session) : Bool :=
  s.type = SessionType.discharging && !btFalsy s.batteryType &&
    (match s.ratedCapacity with
     | some q => decide (0 < q)
     | none => false) &&
    decide (2 ≤ s.logs.length)

/-- Largest element of a nonempty integer list, with a default for the empty
list (`Math.max(...timestamps)`; the source only evaluates it on a nonempty
key set). -/
def maxListD : List ℤ → ℤ → ℤ
  | [], d => d
  | x :: xs, _ => xs.foldl max x

/-- `lastLogTime` of the staleness check: the maximum of the parsed log-key
timestamps, `startTime` when there are no logs, and `none` (the `NaN` that
`Math.max` yields) when some key does not parse. -/
def lastLogTime (s : Session) : Option ℤ :=
  match s.logs with
  | [] => some s.startTime
  | _ :: _ =>
    if s.logs.all (fun e => e.ts.isSome) then
      some (maxListD (s.logs.filterMap RawEntry.ts) s.startTime)
    else none

/-- The staleness condition of `use-port-data.ts`: evaluated only for a
charging/discharging status, and requiring both `sessionDuration > 10 min`
and `timeSinceLastLog > STALE_SESSION_TIMEOUT`.  When the last-log time is
`NaN` the second comparison is false. -/
def isStale (s : Session) (now : ℤ) : Bool :=
  (s.status = SessionStatus.charging || s.status = SessionStatus.discharging) &&
    (match lastLogTime s with
     | some t =>
       decide (10 * 60 * 1000 < now - s.startTime) &&
         decide (STALE_SESSION_TIMEOUT < now - t)
     | none => false)

/-- The note text written by the auto-close block. -/
def staleCloseNote : String :=
  "Session closed due to inactivity. Final battery metrics calculated and saved."

/-- Net effect of one auto-close on the session and port records. -/
structure CloseEffect where
  status : SessionStatus
  endTime : ℤ
  notes : String
  finalFields : Option FinalFields
  clearedSessionId : Bool
deriving DecidableEq

/-- One staleness evaluation of the monitor in `use-port-data.ts` (closing
flag clear): when the session is stale it is auto-closed — final numeric
fields are written only when `canCalculateFinalMetrics` holds, and the close
block always writes `status = completed`, `endTime = now`, the explanatory
note, and clears the port's `currentSessionId`.  Otherwise no write occurs. -/
def monitorStaleStep (s : Session) (now : ℤ) : Option CloseEffect :=
  if isStale s now then
    some
      { status := SessionStatus.completed
        endTime := now
        notes := staleCloseNote
        finalFields :=
          if canCalculateFinalMetrics s then
            some (saveFinalData s.logs s.batteryType (s.ratedCapacity.getD 0))
          else none
        clearedSessionId := true }
  else none

/-- The SOC formula as the specification words it:
`clamp(((V_start − V_cutoff) − (V_start − V_now)) / (V_start − V_cutoff) × 100, 0, 100)`,
with SOC `0` when `V_start ≤ V_cutoff`. -/
def socSpec (vNow vStart vCutoff : ℚ) : ℚ :=
  if vStart ≤ vCutoff then 0
  else max 0 (min 100 (((vStart - vCutoff) - (vStart - vNow)) / (vStart - vCutoff) * 100))

/-- The SOC value claim C3 describes: the spec formula applied to the first
and last voltages of the cutoff-truncated series.  This definition follows
the claim's words (not the source) for comparison against
`calculateBatteryMetrics`. -/
def specSOCOfTruncated (logs : List RawEntry) (batteryType : Option String) : ℚ :=
  let c := getCutoffVoltage batteryType
  let truncated := cutoffTruncate c (sortSamples (parseEntries logs))
  socSpec (truncated.getLastD ⟨0, 0, 0⟩).voltage (truncated.headD ⟨0, 0, 0⟩).voltage c

/-! ### Claim C1 -/

/-- C1 (counterexample): the claim fails as stated.  With two raw log entries
of which only one parses (fewer than 2 valid samples) and a present battery
type, `calculateBatteryMetrics` does not return the all-zero metric set: the
remaining capacity comes out as the full rated capacity and the SOC branch
computes from the unfiltered entries. -/
theorem c1_counterexample :
    (parseEntries [⟨some 100, some (21 / 5), some 1⟩, ⟨none, some (7 / 2), some 1⟩]).length < 2 ∧
    calculateBatteryMetrics
      [⟨some 100, some (21 / 5), some 1⟩, ⟨none, some (7 / 2), some 1⟩]
      (some "lipo") 1 ≠ zeroMetrics := by
  constructor
  · decide
  · exact of_decide_eq_true (by with_unfolding_all rfl)

/-- C1 (amended): the all-zero metric set is returned exactly on the gate the
code actually tests — battery type falsy (absent or empty) or fewer than 2 raw
log entries; the count of valid parsed samples plays no role in this gate. -/
theorem c1_zero_metrics_gate (logs : List RawEntry) (batteryType : Option String)
    (ratedCapacity : ℚ)
    (h : btFalsy batteryType = true ∨ logs.length < 2) :
    calculateBatteryMetrics logs batteryType ratedCapacity = zeroMetrics := by
  unfold calculateBatteryMetrics
  rcases h with h | h
  · simp [h]
  · simp [h]

/-- C1 witness: the amended gate theorem applied at a concrete input. -/
theorem c1_zero_metrics_gate_witness :
    (btFalsy none = true ∨ ([⟨some 100, some 4, some 1⟩] : List RawEntry).length < 2) ∧
    calculateBatteryMetrics [⟨some 100, some 4, some 1⟩] none 5 = zeroMetrics :=
  ⟨Or.inr (by decide),
    c1_zero_metrics_gate [⟨some 100, some 4, some 1⟩] none 5 (Or.inr (by decide))⟩

/-! ### Claim C10 -/

/-- C10: cutoff classification precedence — a lithium keyword wins over
lead-acid and nickel keywords, and a lead-acid keyword wins over nickel
keywords, for every non-empty label. -/
theorem c10_cutoff_precedence (s : String) (hne : s ≠ "") :
    (hasLithium s = true → getCutoffVoltage (some s) = 3) ∧
    (hasLeadAcid s = true → hasLithium s = false → getCutoffVoltage (some s) = 21 / 2) ∧
    (hasNickel s = true → hasLithium s = false → hasLeadAcid s = false →
      getCutoffVoltage (some s) = 9 / 10) := by
  have hfal : btFalsy (some s) = false := by simp [btFalsy, hne]
  refine ⟨fun hl => ?_, fun hl hla => ?_, fun hn hl hla => ?_⟩
  · simp [getCutoffVoltage, hfal, hl]
  · simp [getCutoffVoltage, hfal, hl, hla]
  · simp [getCutoffVoltage, hfal, hl, hla, hn]

/-- C10 witness: a label matching both the lithium and the lead-acid family
resolves to the lithium cutoff 3.0 V, not 10.5 V. -/
theorem c10_cutoff_precedence_witness :
    hasLithium "LipoLead" = true ∧ hasLeadAcid "LipoLead" = true ∧
    getCutoffVoltage (some "LipoLead") = 3 :=
  ⟨by decide, by decide,
    (c10_cutoff_precedence "LipoLead" (by decide)).1 (by decide)⟩

/-! ### Claim C4 -/

theorem tmGet_tmSet (m : ThrottleMap) (key : String) (v : ℤ) :
    tmGet (tmSet m key v) key = v := by
  simp [tmGet, tmSet, List.find?]

/-- C4: two real-time persistence calls for the same `(portId, sessionId)` key
within the throttle interval produce exactly one store write — the earlier
call writes the metric fields with `lastUpdated` set to its clock reading, and
the later call is dropped by the throttle with no store write. -/
theorem c4_throttle_one_write (m : ThrottleMap) (portId sessionId : String)
    (logs logs2 : List RawEntry) (bt bt2 : Option String) (rc rc2 : ℚ)
    (t1 t2 : ℤ) (ok2 : Bool)
    (h1 : THROTTLE_INTERVAL ≤ t1 - tmGet m (portId ++ "_" ++ sessionId))
    (h2 : t2 - t1 < THROTTLE_INTERVAL) :
    (updateRealTimeBatteryMetrics m portId sessionId logs bt rc t1 true).2 =
      RTOutcome.written
        ⟨(calculateBatteryMetrics logs bt rc).dischargedCapacity,
          (calculateBatteryMetrics logs bt rc).soc,
          (calculateBatteryMetrics logs bt rc).soh,
          (calculateBatteryMetrics logs bt rc).remainingCapacity, t1⟩ ∧
    (updateRealTimeBatteryMetrics
      (updateRealTimeBatteryMetrics m portId sessionId logs bt rc t1 true).1
      portId sessionId logs2 bt2 rc2 t2 ok2).2 = RTOutcome.throttled := by
  have hnot : ¬ (t1 - tmGet m (portId ++ "_" ++ sessionId) < THROTTLE_INTERVAL) :=
    not_lt.mpr h1
  constructor
  · simp [updateRealTimeBatteryMetrics, hnot]
  · have hfst :
        (updateRealTimeBatteryMetrics m portId sessionId logs bt rc t1 true).1 =
          tmSet m (portId ++ "_" ++ sessionId) t1 := by
      simp [updateRealTimeBatteryMetrics, hnot]
    rw [hfst]
    simp [updateRealTimeBatteryMetrics, tmGet_tmSet, h2]

/-- C4 witness: the throttle theorem applied at concrete inputs. -/
theorem c4_throttle_one_write_witness :
    THROTTLE_INTERVAL ≤ 10000 - tmGet ([] : ThrottleMap) ("p" ++ "_" ++ "s") ∧
    (12000 : ℤ) - 10000 < THROTTLE_INTERVAL ∧
    ((updateRealTimeBatteryMetrics ([] : ThrottleMap) "p" "s" [] none 0 10000 true).2 =
      RTOutcome.written
        ⟨(calculateBatteryMetrics [] none 0).dischargedCapacity,
          (calculateBatteryMetrics [] none 0).soc,
          (calculateBatteryMetrics [] none 0).soh,
          (calculateBatteryMetrics [] none 0).remainingCapacity, 10000⟩ ∧
     (updateRealTimeBatteryMetrics
        (updateRealTimeBatteryMetrics ([] : ThrottleMap) "p" "s" [] none 0 10000 true).1
        "p" "s" [] none 0 12000 true).2 = RTOutcome.throttled) :=
  ⟨by decide, by decide,
    c4_throttle_one_write ([] : ThrottleMap) "p" "s" [] [] none none 0 0 10000 12000 true
      (by decide) (by decide)⟩

/-! ### Claim C8 -/

/-- C8 (counterexample): the claim fails as stated.  A failed store write
leaves the per-key throttle timestamp updated (it is recorded before the
write), so a retry on the next notification within the throttle interval is
dropped: below, the first call fails and the retry one second later performs
no store write. -/
theorem c8_counterexample :
    (updateRealTimeBatteryMetrics ([] : ThrottleMap) "p" "s" [] none 0 10000 false).2 =
      RTOutcome.failed ∧
    (updateRealTimeBatteryMetrics ([] : ThrottleMap) "p" "s" [] none 0 10000 false).1 ≠
      ([] : ThrottleMap) ∧
    (updateRealTimeBatteryMetrics
      (updateRealTimeBatteryMetrics ([] : ThrottleMap) "p" "s" [] none 0 10000 false).1
      "p" "s" [] none 0 11000 true).2 = RTOutcome.throttled := by
  refine ⟨by decide, ?_, by decide⟩
  intro h
  exact absurd (congrArg List.length h) (by decide)

/-- C8 (amended): a non-throttled call whose store write fails still records
the throttle timestamp before the write, so a retry within
`THROTTLE_INTERVAL` of the failed attempt is suppressed by the throttle and
performs no store write. -/
theorem c8_failed_write_keeps_throttle (m : ThrottleMap) (portId sessionId : String)
    (logs : List RawEntry) (bt : Option String) (rc : ℚ) (t1 : ℤ)
    (h1 : THROTTLE_INTERVAL ≤ t1 - tmGet m (portId ++ "_" ++ sessionId)) :
    (updateRealTimeBatteryMetrics m portId sessionId logs bt rc t1 false).2 =
      RTOutcome.failed ∧
    tmGet (updateRealTimeBatteryMetrics m portId sessionId logs bt rc t1 false).1
      (portId ++ "_" ++ sessionId) = t1 ∧
    (∀ t2 : ℤ, ∀ logs2 : List RawEntry, ∀ bt2 : Option String, ∀ rc2 : ℚ, ∀ ok2 : Bool,
      t2 - t1 < THROTTLE_INTERVAL →
      (updateRealTimeBatteryMetrics
        (updateRealTimeBatteryMetrics m portId sessionId logs bt rc t1 false).1
        portId sessionId logs2 bt2 rc2 t2 ok2).2 = RTOutcome.throttled) := by
  have hnot : ¬ (t1 - tmGet m (portId ++ "_" ++ sessionId) < THROTTLE_INTERVAL) :=
    not_lt.mpr h1
  have hfst :
      (updateRealTimeBatteryMetrics m portId sessionId logs bt rc t1 false).1 =
        tmSet m (portId ++ "_" ++ sessionId) t1 := by
    simp [updateRealTimeBatteryMetrics, hnot]
  refine ⟨by simp [updateRealTimeBatteryMetrics, hnot], by rw [hfst]; exact tmGet_tmSet .., ?_⟩
  intro t2 logs2 bt2 rc2 ok2 h2
  rw [hfst]
  simp [updateRealTimeBatteryMetrics, tmGet_tmSet, h2]

/-- C8 witness: the amended theorem applied at concrete inputs. -/
theorem c8_failed_write_keeps_throttle_witness :
    THROTTLE_INTERVAL ≤ 10000 - tmGet ([] : ThrottleMap) ("p" ++ "_" ++ "s") ∧
    tmGet (updateRealTimeBatteryMetrics ([] : ThrottleMap) "p" "s" [] none 0 10000 false).1
      ("p" ++ "_" ++ "s") = 10000 :=
  ⟨by decide,
    (c8_failed_write_keeps_throttle ([] : ThrottleMap) "p" "s" [] none 0 10000
      (by decide)).2.1⟩

/-! ### Claim C5 -/

/-- C5: while a session's status is charging or discharging and its log keys
parse, the monitor auto-closes exactly when both the 10-minute session
duration bound and the `STALE_SESSION_TIMEOUT` since-last-log bound are
strictly exceeded (the last-log time defaulting to `startTime` without logs);
the close writes `status = completed`, `endTime = now` and clears the port's
`currentSessionId`.  When either bound is not exceeded the session stays
open. -/
theorem c5_stale_close_iff (s : Session) (now : ℤ)
    (hstatus : s.status = SessionStatus.charging ∨ s.status = SessionStatus.discharging)
    (hkeys : ∀ e ∈ s.logs, e.ts.isSome = true) :
    ((monitorStaleStep s now).isSome ↔
      (10 * 60 * 1000 < now - s.startTime ∧
        STALE_SESSION_TIMEOUT <
          now - maxListD (s.logs.filterMap RawEntry.ts) s.startTime)) ∧
    (∀ e : CloseEffect, monitorStaleStep s now = some e →
      e.status = SessionStatus.completed ∧ e.endTime = now ∧
        e.clearedSessionId = true) := by
  have hlast : lastLogTime s = some (maxListD (s.logs.filterMap RawEntry.ts) s.startTime) := by
    unfold lastLogTime
    match hl : s.logs with
    | [] => simp [maxListD]
    | e :: rest =>
      have hall : (e :: rest).all (fun x => x.ts.isSome) = true := by
        rw [List.all_eq_true]
        intro x hx
        exact hkeys x (hl ▸ hx)
      simp [hall]
  have hst : (s.status = SessionStatus.charging || s.status = SessionStatus.discharging) = true := by
    rcases hstatus with h | h <;> simp [h]
  constructor
  · unfold monitorStaleStep isStale
    rw [hlast, hst]
    by_cases h1 : 10 * 60 * 1000 < now - s.startTime <;>
      by_cases h2 : STALE_SESSION_TIMEOUT <
        now - maxListD (s.logs.filterMap RawEntry.ts) s.startTime <;>
      simp [h1, h2]
  · intro e he
    unfold monitorStaleStep at he
    by_cases hstale : isStale s now = true
    · rw [if_pos hstale] at he
      cases he
      exact ⟨rfl, rfl, rfl⟩
    · rw [if_neg hstale] at he
      cases he

/-- C5 witness: the staleness theorem applied to a concrete stale session. -/
theorem c5_stale_close_iff_witness :
    ((Session.mk 0 SessionStatus.discharging SessionType.discharging none none []).status =
        SessionStatus.charging ∨
      (Session.mk 0 SessionStatus.discharging SessionType.discharging none none []).status =
        SessionStatus.discharging) ∧
    ((monitorStaleStep
        (Session.mk 0 SessionStatus.discharging SessionType.discharging none none [])
        700000).isSome ↔
      (10 * 60 * 1000 < (700000 : ℤ) - 0 ∧
        STALE_SESSION_TIMEOUT < 700000 - maxListD (([] : List RawEntry).filterMap RawEntry.ts) 0)) :=
  ⟨Or.inr rfl,
    (c5_stale_close_iff
      (Session.mk 0 SessionStatus.discharging SessionType.discharging none none [])
      700000 (Or.inr rfl) (by decide)).1⟩

/-! ### Claim C9 -/

/-- C9: when a stale session does not qualify for final-metrics computation
(type not discharging, or battery type unset, or rated capacity absent or not
positive, or fewer than 2 log entries), the auto-close still writes
`status = completed`, `endTime = now` and the explanatory note, and writes
none of the `final*` numeric fields. -/
theorem c9_finalize_without_metrics (s : Session) (now : ℤ) (e : CloseEffect)
    (hnq : s.type ≠ SessionType.discharging ∨ s.batteryType = none ∨
      (∀ q : ℚ, s.ratedCapacity = some q → ¬ 0 < q) ∨ s.logs.length < 2)
    (he : monitorStaleStep s now = some e) :
    e.status = SessionStatus.completed ∧ e.endTime = now ∧
      e.notes = staleCloseNote ∧ e.finalFields = none := by
  have hcc : canCalculateFinalMetrics s = false := by
    unfold canCalculateFinalMetrics
    rcases hnq with h | h | h | h
    · simp [h]
    · simp [h, btFalsy]
    · rcases hrc : s.ratedCapacity with _ | q
      · simp [hrc]
      · have := h q hrc
        simp [hrc, this]
    · have : ¬ 2 ≤ s.logs.length := by omega
      simp [this]
  unfold monitorStaleStep at he
  by_cases hstale : isStale s now = true
  · rw [if_pos hstale] at he
    cases he
    exact ⟨rfl, rfl, rfl, by simp [hcc]⟩
  · rw [if_neg hstale] at he
    cases he

/-- C9 witness: a stale discharging session with no rated capacity is closed
with `status = completed`, the note, and no `final*` fields. -/
theorem c9_finalize_without_metrics_witness :
    monitorStaleStep
      (Session.mk 0 SessionStatus.discharging SessionType.discharging (some "lipo") none
        [⟨some 1000, some 4, some 1⟩, ⟨some 2000, some 4, some 1⟩])
      700000 =
      some (CloseEffect.mk SessionStatus.completed 700000 staleCloseNote none true) ∧
    ((CloseEffect.mk SessionStatus.completed 700000 staleCloseNote none true).status =
        SessionStatus.completed ∧
      (CloseEffect.mk SessionStatus.completed 700000 staleCloseNote none true).endTime = 700000 ∧
      (CloseEffect.mk SessionStatus.completed 700000 staleCloseNote none true).notes =
        staleCloseNote ∧
      (CloseEffect.mk SessionStatus.completed 700000 staleCloseNote none true).finalFields =
        none) :=
  ⟨by decide,
    c9_finalize_without_metrics
      (Session.mk 0 SessionStatus.discharging SessionType.discharging (some "lipo") none
        [⟨some 1000, some 4, some 1⟩, ⟨some 2000, some 4, some 1⟩])
      700000 (CloseEffect.mk SessionStatus.completed 700000 staleCloseNote none true)
      (Or.inr (Or.inr (Or.inl (fun q hq => nomatch hq))))
      (by decide)⟩

/-! ### Claim C2 -/

theorem trapTerm_nonneg (a b : Sample) : 0 ≤ trapTerm a b := by
  unfold trapTerm
  split
  · rename_i h
    apply mul_nonneg
    · have h1 : (0 : ℚ) ≤ |a.current| := abs_nonneg _
      have h2 : (0 : ℚ) ≤ |b.current| := abs_nonneg _
      linarith
    · apply div_nonneg
      · have : a.ts ≤ b.ts := le_of_lt h
        exact_mod_cast Int.sub_nonneg.mpr this
      · norm_num
  · exact le_refl 0

theorem trapSum_nonneg : ∀ l : List Sample, 0 ≤ trapSum l
  | [] => le_refl 0
  | [_] => le_refl 0
  | a :: b :: rest => by
    have h1 := trapTerm_nonneg a b
    have h2 := trapSum_nonneg (b :: rest)
    simp only [trapSum]
    linarith

theorem trapSum_eq_zero_of_no_valid :
    ∀ l : List Sample, countValidIntervals l = 0 → trapSum l = 0
  | [] , _ => rfl
  | [_], _ => rfl
  | a :: b :: rest, h => by
    simp only [countValidIntervals] at h
    by_cases hab : a.ts < b.ts
    · simp [hab] at h
    · have hc : countValidIntervals (b :: rest) = 0 := by simpa [hab] using h
      have hrec := trapSum_eq_zero_of_no_valid (b :: rest) hc
      simp [trapSum, trapTerm, hab, hrec]

theorem parseEntries_length_le (l : List RawEntry) :
    (parseEntries l).length ≤ l.length :=
  List.length_filterMap_le parseEntry l

theorem sortSamples_length (l : List Sample) :
    (sortSamples l).length = l.length :=
  (isort_perm sampleLE l).length_eq

/-- C2 (amended): measured capacity coincides with discharged capacity for a
discharging session in exactly the cases the extra acceptance checks of
`calculateMeasuredCapacity` allow: whenever the cutoff-truncated series is
degenerate (fewer than 2 samples, both results 0) or its first-to-last
voltage decrease is at least 0.1 V.  Without that decrease the two differ
(see the counterexample). -/
theorem c2_measured_eq_discharged (s : Session) (cutoff : ℚ)
    (htype : s.type = SessionType.discharging)
    (hdec :
      (cutoffTruncate cutoff (sortSamples (parseEntries s.logs))).length < 2 ∨
      1 / 10 ≤
        ((cutoffTruncate cutoff (sortSamples (parseEntries s.logs))).headD ⟨0, 0, 0⟩).voltage -
          ((cutoffTruncate cutoff (sortSamples (parseEntries s.logs))).getLastD ⟨0, 0, 0⟩).voltage) :
    calculateMeasuredCapacity s cutoff = calculateDischargedCapacity s.logs cutoff := by
  unfold calculateMeasuredCapacity calculateDischargedCapacity
  have htype' : ¬ s.type ≠ SessionType.discharging := by simp [htype]
  by_cases hraw : s.logs.length < 2
  · rw [if_pos hraw]
    have h01 : s.logs.length = 0 ∨ s.logs.length = 1 := by omega
    rcases h01 with h0 | h1
    · simp [h0]
    · have hE : (sortSamples (parseEntries s.logs)).length < 2 := by
        rw [sortSamples_length]
        have := parseEntries_length_le s.logs
        omega
      rw [if_neg (by omega), if_neg htype', if_pos hE]
  · rw [if_neg hraw, if_neg (by omega : ¬ s.logs.length = 0), if_neg htype']
    by_cases hE : (sortSamples (parseEntries s.logs)).length < 2
    · rw [if_pos hE, if_pos hE]
    · rw [if_neg hE, if_neg hE]
      by_cases hT : (cutoffTruncate cutoff (sortSamples (parseEntries s.logs))).length < 2
      · rw [if_pos hT, if_pos hT]
      · rw [if_neg hT, if_neg hT]
        have hd : ¬ (((cutoffTruncate cutoff (sortSamples (parseEntries s.logs))).headD
              ⟨0, 0, 0⟩).voltage -
            ((cutoffTruncate cutoff (sortSamples (parseEntries s.logs))).getLastD
              ⟨0, 0, 0⟩).voltage < 1 / 10) := by
          rcases hdec with h | h
          · exact absurd h hT
          · exact not_lt.mpr h
        rw [if_neg hd]
        have hnn : ¬ trapSum (cutoffTruncate cutoff (sortSamples (parseEntries s.logs))) < 0 :=
          not_lt.mpr (trapSum_nonneg _)
        rw [if_neg hnn]
        by_cases hc : countValidIntervals
            (cutoffTruncate cutoff (sortSamples (parseEntries s.logs))) = 0
        · rw [if_pos hc, trapSum_eq_zero_of_no_valid _ hc]
        · rw [if_neg hc]

/-- C2 (counterexample): the claim fails as stated.  For a discharging
session whose truncated series drops only 0.05 V, `calculateMeasuredCapacity`
returns 0 by its voltage-decrease acceptance check while
`calculateDischargedCapacity` integrates 2 Ah — the two functions are not the
same quantity without further conditions. -/
theorem c2_counterexample :
    (Session.mk 0 SessionStatus.discharging SessionType.discharging (some "lipo") (some 4)
        [⟨some 0, some (21 / 5), some 2⟩, ⟨some 3600000, some (83 / 20), some 2⟩]).type =
      SessionType.discharging ∧
    calculateMeasuredCapacity
        (Session.mk 0 SessionStatus.discharging SessionType.discharging (some "lipo") (some 4)
          [⟨some 0, some (21 / 5), some 2⟩, ⟨some 3600000, some (83 / 20), some 2⟩]) 3 ≠
      calculateDischargedCapacity
        [⟨some 0, some (21 / 5), some 2⟩, ⟨some 3600000, some (83 / 20), some 2⟩] 3 :=
  ⟨rfl, of_decide_eq_true (by with_unfolding_all rfl)⟩

/-- C2 witness: the amended theorem applied to a session with a 0.3 V
decrease over the truncated window. -/
theorem c2_measured_eq_discharged_witness :
    (Session.mk 0 SessionStatus.discharging SessionType.discharging (some "lipo") (some 4)
        [⟨some 0, some (21 / 5), some 2⟩, ⟨some 3600000, some (39 / 10), some 2⟩]).type =
      SessionType.discharging ∧
    calculateMeasuredCapacity
        (Session.mk 0 SessionStatus.discharging SessionType.discharging (some "lipo") (some 4)
          [⟨some 0, some (21 / 5), some 2⟩, ⟨some 3600000, some (39 / 10), some 2⟩]) 3 =
      calculateDischargedCapacity
        [⟨some 0, some (21 / 5), some 2⟩, ⟨some 3600000, some (39 / 10), some 2⟩] 3 :=
  ⟨rfl,
    c2_measured_eq_discharged
      (Session.mk 0 SessionStatus.discharging SessionType.discharging (some "lipo") (some 4)
        [⟨some 0, some (21 / 5), some 2⟩, ⟨some 3600000, some (39 / 10), some 2⟩]) 3 rfl
      (Or.inr (of_decide_eq_true (by with_unfolding_all rfl)))⟩

/-! ### Claim C3 -/

/-- `calculateSOC` agrees pointwise with the clamp formula of the
specification: the early `currentVoltage ≤ cutoffVoltage` return of the code
coincides with the clamp of a non-positive value. -/
theorem calculateSOC_eq_socSpec (v s c : ℚ) : calculateSOC v s c = socSpec v s c := by
  unfold calculateSOC socSpec
  by_cases h1 : s ≤ c
  · simp [h1]
  · simp only [h1, if_false]
    by_cases h2 : v ≤ c
    · simp only [h2, if_true]
      have hpos : 0 < s - c := by linarith
      have hnum : (s - c) - (s - v) ≤ 0 := by linarith
      have hdiv : ((s - c) - (s - v)) / (s - c) ≤ 0 :=
        div_nonpos_of_nonpos_of_nonneg hnum (le_of_lt hpos)
      have hx : ((s - c) - (s - v)) / (s - c) * 100 ≤ 0 := by nlinarith
      rw [min_eq_right (le_trans hx (by norm_num)), max_eq_left hx]
    · simp [h2]

/-- Image of a fully parsed sample in the SOC projection. -/
def sampleToV (s : Sample) : VEntry := ⟨some s.ts, some s.voltage⟩

theorem parseEntry_shape (e : RawEntry) (h : (parseEntry e).isSome = true) :
    ∃ t v c, e.ts = some t ∧ e.voltage = some v ∧ e.current = some c := by
  rcases e with ⟨ts, v, c⟩
  cases ts <;> cases v <;> cases c <;> simp [parseEntry] at h ⊢

/-- On an all-valid log list the SOC projection is the `sampleToV` image of
the parsed samples. -/
theorem map_toV_eq (l : List RawEntry) (h : ∀ e ∈ l, (parseEntry e).isSome = true) :
    l.map RawEntry.toV = (parseEntries l).map sampleToV := by
  induction l with
  | nil => rfl
  | cons e rest ih =>
    obtain ⟨t, v, c, ht, hv, hc⟩ := parseEntry_shape e (h e (by simp))
    have he : parseEntry e = some ⟨t, v, c⟩ := by
      unfold parseEntry
      rw [ht, hv, hc]
    have hrest := ih (fun x hx => h x (by simp [hx]))
    simp [parseEntries, List.filterMap_cons, he, RawEntry.toV, sampleToV, ht, hv, hrest]

theorem insLE_map {α β : Type} (f : α → β) (le1 : β → β → Bool) (le2 : α → α → Bool)
    (hagree : ∀ a b, le1 (f a) (f b) = le2 a b) (x : α) :
    ∀ l : List α, insLE le1 (f x) (l.map f) = (insLE le2 x l).map f
  | [] => by simp [insLE]
  | y :: ys => by
    simp only [List.map_cons, insLE, hagree]
    by_cases h : le2 x y = true
    · simp [h]
    · simp [h, insLE_map f le1 le2 hagree x ys]

theorem isort_map {α β : Type} (f : α → β) (le1 : β → β → Bool) (le2 : α → α → Bool)
    (hagree : ∀ a b, le1 (f a) (f b) = le2 a b) :
    ∀ l : List α, isort le1 (l.map f) = (isort le2 l).map f
  | [] => rfl
  | x :: xs => by
    simp only [List.map_cons, isort, isort_map f le1 le2 hagree xs]
    exact insLE_map f le1 le2 hagree x (isort le2 xs)

theorem vLE_sampleToV (a b : Sample) : vLE (sampleToV a) (sampleToV b) = sampleLE a b := rfl

/-- On an all-valid log list the SOC branch's sorted projection is the
projection of the sorted parsed samples. -/
theorem sortV_eq_of_valid (logs : List RawEntry)
    (h : ∀ e ∈ logs, (parseEntry e).isSome = true) :
    sortV (logs.map RawEntry.toV) = (sortSamples (parseEntries logs)).map sampleToV := by
  unfold sortV sortSamples
  rw [map_toV_eq logs h]
  exact isort_map sampleToV vLE sampleLE vLE_sampleToV (parseEntries logs)

/-- C3 (amended): for an all-valid log set of at least 2 samples and a
non-empty battery type, the SOC computed by `calculateBatteryMetrics` is the
specification's clamp formula applied to the first and last voltages of the
FULL timestamp-sorted series — not the cutoff-truncated series claimed by the
spec (SOC is 0 whenever that start voltage is at or below the cutoff). -/
theorem c3_soc_full_series (logs : List RawEntry) (bt : String) (rc : ℚ)
    (hbt : bt ≠ "")
    (hval : ∀ e ∈ logs, (parseEntry e).isSome = true)
    (hlen : 2 ≤ logs.length) :
    (calculateBatteryMetrics logs (some bt) rc).soc =
      socSpec ((sortSamples (parseEntries logs)).getLastD ⟨0, 0, 0⟩).voltage
        ((sortSamples (parseEntries logs)).headD ⟨0, 0, 0⟩).voltage
        (getCutoffVoltage (some bt)) := by
  have hfal : btFalsy (some bt) = false := by simp [btFalsy, hbt]
  have hnlt : ¬ logs.length < 2 := by omega
  have hPlen : (parseEntries logs).length = logs.length := by
    have := congrArg List.length (map_toV_eq logs hval)
    simpa using this.symm
  have hSlen : (sortSamples (parseEntries logs)).length = logs.length := by
    rw [sortSamples_length, hPlen]
  obtain ⟨s0, S1, hS⟩ : ∃ s0 S1, sortSamples (parseEntries logs) = s0 :: S1 := by
    match hm : sortSamples (parseEntries logs) with
    | [] => rw [hm, List.length_nil] at hSlen; omega
    | s0 :: S1 => exact ⟨s0, S1, rfl⟩
  obtain ⟨z, hz⟩ : ∃ z, (sortSamples (parseEntries logs)).getLast? = some z := by
    rw [hS]
    exact ⟨(s0 :: S1).getLast (by simp), List.getLast?_eq_getLast _ _⟩
  unfold calculateBatteryMetrics
  rw [if_neg (by simp [hfal, hnlt])]
  simp only [Metrics.soc]
  rw [calculateSOC_eq_socSpec]
  congr 1
  · -- current voltage: last of the projected sort is the last parsed voltage
    rw [sortV_eq_of_valid logs hval]
    rw [List.getLastD_eq_getLast?, List.getLastD_eq_getLast?, List.getLast?_map, hz]
    simp [jsOr0, sampleToV]
  · -- start voltage: head of the projected sort is the first parsed voltage
    rw [sortV_eq_of_valid logs hval, hS]
    simp [jsOr0, sampleToV]

/-- C3 (counterexample): the claim fails as stated.  For a series that dips
to 2.9 V (at the 3.0 V cutoff) and then recovers to 4.0 V, the truncated
series ends at the cutoff sample so the claimed SOC is 0, but the code
computes SOC from the last sample of the full series and returns 250/3. -/
theorem c3_counterexample :
    (calculateBatteryMetrics
        [⟨some 0, some (21 / 5), some 1⟩, ⟨some 3600000, some (29 / 10), some 1⟩,
          ⟨some 7200000, some 4, some 1⟩] (some "lipo") 1).soc ≠
      specSOCOfTruncated
        [⟨some 0, some (21 / 5), some 1⟩, ⟨some 3600000, some (29 / 10), some 1⟩,
          ⟨some 7200000, some 4, some 1⟩] (some "lipo") :=
  of_decide_eq_true (by with_unfolding_all rfl)

/-- C3 witness: the amended SOC theorem applied at a concrete input. -/
theorem c3_soc_full_series_witness :
    ("lipo" ≠ "") ∧
    (calculateBatteryMetrics
        [⟨some 0, some (21 / 5), some 1⟩, ⟨some 3600000, some 4, some 1⟩]
        (some "lipo") 1).soc =
      socSpec
        ((sortSamples (parseEntries
            [⟨some 0, some (21 / 5), some 1⟩, ⟨some 3600000, some 4, some 1⟩])).getLastD
          ⟨0, 0, 0⟩).voltage
        ((sortSamples (parseEntries
            [⟨some 0, some (21 / 5), some 1⟩, ⟨some 3600000, some 4, some 1⟩])).headD
          ⟨0, 0, 0⟩).voltage
        (getCutoffVoltage (some "lipo")) :=
  ⟨by decide,
    c3_soc_full_series
      [⟨some 0, some (21 / 5), some 1⟩, ⟨some 3600000, some 4, some 1⟩]
      "lipo" 1 (by decide) (by decide) (by decide)⟩

/-! ### Claim C6 -/

theorem insLE_append_of_le {α : Type} (le : α → α → Bool) (x e : α) (hxe : le x e = true) :
    ∀ l : List α, insLE le x (l ++ [e]) = insLE le x l ++ [e]
  | [] => by simp [insLE, hxe]
  | y :: ys => by
    simp only [List.cons_append, insLE]
    by_cases h : le x y = true
    · simp [h]
    · simp [h, insLE_append_of_le le x e hxe ys]

/-- Sorting a list with one element appended that dominates every list
element leaves that element at the end. -/
theorem isort_append_of_max {α : Type} (le : α → α → Bool) (e : α) :
    ∀ l : List α, (∀ x ∈ l, le x e = true) → isort le (l ++ [e]) = isort le l ++ [e]
  | [], _ => by simp [isort, insLE]
  | x :: xs, h => by
    simp only [List.cons_append, isort, List.append_eq]
    rw [isort_append_of_max le e xs (fun y hy => h y (by simp [hy]))]
    exact insLE_append_of_le le x e (h x (by simp)) (isort le xs)

/-- Appending an above-cutoff sample extends the truncated window exactly
when no earlier sample had reached the cutoff. -/
theorem cutoffTruncate_append (c : ℚ) (e : Sample) (he : ¬ e.voltage ≤ c) :
    ∀ l : List Sample, cutoffTruncate c (l ++ [e]) =
      cutoffTruncate c l ++
        (if l.any (fun smp => decide (smp.voltage ≤ c)) = true then [] else [e])
  | [] => by simp [cutoffTruncate, he]
  | x :: xs => by
    simp only [List.cons_append, cutoffTruncate, List.any_cons]
    by_cases h : x.voltage ≤ c
    · simp [h]
    · simp [h, cutoffTruncate_append c e he xs]

theorem cutoffTruncate_length_le (c : ℚ) :
    ∀ l : List Sample, (cutoffTruncate c l).length ≤ l.length
  | [] => le_refl 0
  | x :: xs => by
    simp only [cutoffTruncate]
    by_cases h : x.voltage ≤ c
    · simp [h]
    · simp only [h, if_false, List.length_cons]
      exact Nat.succ_le_succ (cutoffTruncate_length_le c xs)

theorem trapSum_append_le (e : Sample) : ∀ l : List Sample, trapSum l ≤ trapSum (l ++ [e])
  | [] => le_refl 0
  | [a] => by
    have h1 : trapSum [a] = 0 := rfl
    have h2 : trapSum ([a] ++ [e]) = trapTerm a e + 0 := rfl
    rw [h1, h2]
    have := trapTerm_nonneg a e
    linarith
  | a :: b :: rest => by
    have ih := trapSum_append_le e (b :: rest)
    have h1 : trapSum (a :: b :: rest) = trapTerm a b + trapSum (b :: rest) := rfl
    have h2 : trapSum ((a :: b :: rest) ++ [e]) =
        trapTerm a b + trapSum ((b :: rest) ++ [e]) := rfl
    rw [h1, h2]
    linarith

/-- When the truncated window already holds at least 2 samples, every guard
of `calculateDischargedCapacity` passes and the result is the trapezoidal
sum over the window. -/
theorem calculateDischargedCapacity_eq_trapSum (logs : List RawEntry) (c : ℚ)
    (h2 : 2 ≤ (cutoffTruncate c (sortSamples (parseEntries logs))).length) :
    calculateDischargedCapacity logs c =
      trapSum (cutoffTruncate c (sortSamples (parseEntries logs))) := by
  have hS : 2 ≤ (sortSamples (parseEntries logs)).length :=
    le_trans h2 (cutoffTruncate_length_le c _)
  have hraw : 2 ≤ logs.length := by
    have h1 := parseEntries_length_le logs
    have h2' := sortSamples_length (parseEntries logs)
    omega
  unfold calculateDischargedCapacity
  rw [if_neg (by omega), if_neg (by omega), if_neg (by omega)]

/-- C6: appending one further valid sample with a strictly larger timestamp
and voltage above the cutoff never decreases the computed discharged
capacity (stated, as the claim does, for a truncated window that already has
at least 2 samples). -/
theorem c6_discharged_mono_append (logs : List RawEntry) (cutoff : ℚ) (t : ℤ) (v i : ℚ)
    (hlater : ∀ smp ∈ parseEntries logs, smp.ts < t)
    (habove : cutoff < v)
    (h2 : 2 ≤ (cutoffTruncate cutoff (sortSamples (parseEntries logs))).length) :
    calculateDischargedCapacity logs cutoff ≤
      calculateDischargedCapacity (logs ++ [⟨some t, some v, some i⟩]) cutoff := by
  have hparse : parseEntries (logs ++ [⟨some t, some v, some i⟩]) =
      parseEntries logs ++ [⟨t, v, i⟩] := by
    simp [parseEntries, List.filterMap_append, parseEntry]
  have hmem : ∀ x ∈ parseEntries logs, sampleLE x ⟨t, v, i⟩ = true := by
    intro x hx
    have := hlater x hx
    simp only [sampleLE]
    exact decide_eq_true (le_of_lt this)
  have hsort : sortSamples (parseEntries (logs ++ [⟨some t, some v, some i⟩])) =
      sortSamples (parseEntries logs) ++ [⟨t, v, i⟩] := by
    rw [hparse]
    exact isort_append_of_max sampleLE _ _ hmem
  have hvnot : ¬ (Sample.mk t v i).voltage ≤ cutoff := not_le.mpr habove
  have htr := cutoffTruncate_append cutoff ⟨t, v, i⟩ hvnot (sortSamples (parseEntries logs))
  have hT'len : 2 ≤ (cutoffTruncate cutoff
      (sortSamples (parseEntries (logs ++ [⟨some t, some v, some i⟩])))).length := by
    rw [hsort, htr]
    by_cases hany : (sortSamples (parseEntries logs)).any
        (fun smp => decide (smp.voltage ≤ cutoff)) = true
    · simpa [hany] using h2
    · rw [if_neg hany]
      simp only [List.length_append, List.length_cons, List.length_nil]
      omega
  rw [calculateDischargedCapacity_eq_trapSum logs cutoff h2,
    calculateDischargedCapacity_eq_trapSum _ cutoff hT'len, hsort, htr]
  by_cases hany : (sortSamples (parseEntries logs)).any
      (fun smp => decide (smp.voltage ≤ cutoff)) = true
  · simp [hany]
  · rw [if_neg hany]
    exact trapSum_append_le _ _

/-- C6 witness: the monotonicity theorem applied at a concrete series. -/
theorem c6_discharged_mono_append_witness :
    (∀ smp ∈ parseEntries
        [⟨some 0, some (21 / 5), some 1⟩, ⟨some 3600000, some 4, some 1⟩],
      smp.ts < 7200000) ∧
    calculateDischargedCapacity
        [⟨some 0, some (21 / 5), some 1⟩, ⟨some 3600000, some 4, some 1⟩] 3 ≤
      calculateDischargedCapacity
        ([⟨some 0, some (21 / 5), some 1⟩, ⟨some 3600000, some 4, some 1⟩] ++
          [⟨some 7200000, some (39 / 10), some 1⟩]) 3 :=
  ⟨by decide,
    c6_discharged_mono_append
      [⟨some 0, some (21 / 5), some 1⟩, ⟨some 3600000, some 4, some 1⟩]
      3 7200000 (39 / 10) 1 (by decide)
      (of_decide_eq_true (by with_unfolding_all rfl))
      (of_decide_eq_true (by with_unfolding_all rfl))⟩

/-! ### Claim C7 -/

/-- Two permuted lists whose comparator agrees with an injective integer key
sort to the same list: the sorted order is then unique. -/
theorem isort_eq_of_perm {α : Type} (le : α → α → Bool) (k : α → ℤ) (l1 l2 : List α)
    (hperm : List.Perm l1 l2)
    (hkey : ∀ a ∈ l1, ∀ b ∈ l1, (le a b = true ↔ k a ≤ k b))
    (hnd : (l1.map k).Nodup) :
    isort le l1 = isort le l2 := by
  have hmem2 : ∀ a ∈ l2, a ∈ l1 := fun a ha => hperm.mem_iff.mpr ha
  have htot1 : ∀ a ∈ l1, ∀ b ∈ l1, le a b = true ∨ le b a = true := by
    intro a ha b hb
    rcases Int.le_total (k a) (k b) with h | h
    · exact Or.inl ((hkey a ha b hb).mpr h)
    · exact Or.inr ((hkey b hb a ha).mpr h)
  have htr1 : ∀ a ∈ l1, ∀ b ∈ l1, ∀ c ∈ l1,
      le a b = true → le b c = true → le a c = true := by
    intro a ha b hb c hc hab hbc
    exact (hkey a ha c hc).mpr
      (le_trans ((hkey a ha b hb).mp hab) ((hkey b hb c hc).mp hbc))
  have p1 := pairwise_isort le l1 htot1 htr1
  have p2 := pairwise_isort le l2
    (fun a ha b hb => htot1 a (hmem2 a ha) b (hmem2 b hb))
    (fun a ha b hb c hc => htr1 a (hmem2 a ha) b (hmem2 b hb) c (hmem2 c hc))
  have hpermi : List.Perm (isort le l1) (isort le l2) :=
    (isort_perm le l1).trans (hperm.trans (isort_perm le l2).symm)
  refine eq_of_perm_of_pairwise hpermi p1 p2 ?_
  intro a ha b hb hab hba
  have ha1 : a ∈ l1 := mem_isort.mp ha
  have hb1 : b ∈ l1 := mem_isort.mp hb
  exact List.inj_on_of_nodup_map hnd ha1 hb1
    (le_antisymm ((hkey a ha1 b hb1).mp hab) ((hkey b hb1 a ha1).mp hba))

/-- The parsed samples' timestamps form a sublist of the parsed key list. -/
theorem parse_ts_sublist : ∀ l : List RawEntry,
    List.Sublist ((parseEntries l).map Sample.ts) (l.filterMap RawEntry.ts)
  | [] => List.Sublist.slnil
  | e :: rest => by
    have ih := parse_ts_sublist rest
    rcases e with ⟨ts, v, c⟩
    rcases ts with _ | t
    · simpa [parseEntries, List.filterMap_cons, parseEntry, RawEntry.ts] using ih
    · rcases v with _ | v'
      · simpa [parseEntries, List.filterMap_cons, parseEntry, RawEntry.ts] using
          List.Sublist.cons t ih
      · rcases c with _ | c'
        · simpa [parseEntries, List.filterMap_cons, parseEntry, RawEntry.ts] using
            List.Sublist.cons t ih
        · simpa [parseEntries, List.filterMap_cons, parseEntry, RawEntry.ts] using
            List.Sublist.cons₂ t ih

/-- On an all-valid key list, reading each key with a default is the same as
filtering the parsed keys. -/
theorem map_tsD_eq_filterMap : ∀ l : List RawEntry, (∀ e ∈ l, e.ts.isSome = true) →
    l.map (fun e => e.ts.getD 0) = l.filterMap RawEntry.ts
  | [], _ => rfl
  | e :: rest, h => by
    obtain ⟨t, ht⟩ := Option.isSome_iff_exists.mp (h e (by simp))
    simp [List.filterMap_cons, ht,
      map_tsD_eq_filterMap rest (fun x hx => h x (by simp [hx]))]

theorem calculateDischargedCapacity_congr (l1 l2 : List RawEntry) (c : ℚ)
    (hlen : l1.length = l2.length)
    (hsort : sortSamples (parseEntries l1) = sortSamples (parseEntries l2)) :
    calculateDischargedCapacity l1 c = calculateDischargedCapacity l2 c := by
  unfold calculateDischargedCapacity
  rw [hlen, hsort]

/-- C7 (amended): `calculateBatteryMetrics` is invariant under permutation of
the log entries provided every key parses to a timestamp and no two distinct
entries share the same parsed timestamp.  (Two distinct record keys can parse
to the same integer, e.g. `"100"` and `"100x"`; in that case the trapezoidal
pairing depends on the presentation order — see the counterexample.) -/
theorem c7_metrics_perm_invariant (l1 l2 : List RawEntry) (bt : Option String) (rc : ℚ)
    (hperm : List.Perm l1 l2)
    (hts : ∀ e ∈ l1, e.ts.isSome = true)
    (hnd : (l1.filterMap RawEntry.ts).Nodup) :
    calculateBatteryMetrics l1 bt rc = calculateBatteryMetrics l2 bt rc := by
  have hlen : l1.length = l2.length := hperm.length_eq
  have hsort : sortSamples (parseEntries l1) = sortSamples (parseEntries l2) := by
    unfold sortSamples
    refine isort_eq_of_perm sampleLE Sample.ts (parseEntries l1) (parseEntries l2)
      (hperm.filterMap parseEntry) ?_ (hnd.sublist (parse_ts_sublist l1))
    intro a _ b _
    simp [sampleLE]
  have hsortV : sortV (l1.map RawEntry.toV) = sortV (l2.map RawEntry.toV) := by
    unfold sortV
    refine isort_eq_of_perm vLE (fun e => e.ts.getD 0)
      (l1.map RawEntry.toV) (l2.map RawEntry.toV) (hperm.map RawEntry.toV) ?_ ?_
    · intro a ha b hb
      obtain ⟨ea, hea, haeq⟩ := List.mem_map.mp ha
      obtain ⟨eb, heb, hbeq⟩ := List.mem_map.mp hb
      obtain ⟨ta, hta⟩ := Option.isSome_iff_exists.mp (hts ea hea)
      obtain ⟨tb, htb⟩ := Option.isSome_iff_exists.mp (hts eb heb)
      subst haeq
      subst hbeq
      simp [vLE, RawEntry.toV, hta, htb]
    · rw [List.map_map]
      have : (fun e => VEntry.ts e |>.getD 0) ∘ RawEntry.toV =
          fun e : RawEntry => e.ts.getD 0 := by
        funext e
        simp [RawEntry.toV]
      rw [this, map_tsD_eq_filterMap l1 hts]
      exact hnd
  unfold calculateBatteryMetrics
  by_cases hbt : btFalsy bt = true
  · simp [hbt]
  · by_cases hlt : l1.length < 2
    · have hlt2 : l2.length < 2 := by omega
      simp [hbt, hlt, hlt2]
    · have hlt2 : ¬ l2.length < 2 := by omega
      simp only [hbt, hlt, hlt2, Bool.false_or, decide_eq_true_eq, if_false,
        Bool.false_eq_true]
      rw [calculateDischargedCapacity_congr l1 l2 (getCutoffVoltage bt) hlen hsort, hsortV]

/-- C7 (counterexample): the claim fails as stated.  Two entries whose keys
parse to the same timestamp (e.g. `"3600000"` and `"3600000x"`) make the
trapezoidal pairing order-dependent: presenting the same three samples in two
orders yields discharged capacity 0 in one and 5 Ah in the other. -/
theorem c7_counterexample :
    List.Perm
      [(⟨some 0, some 5, some 0⟩ : RawEntry), ⟨some 3600000, some 4, some 0⟩,
        ⟨some 3600000, some 4, some 10⟩]
      [(⟨some 0, some 5, some 0⟩ : RawEntry), ⟨some 3600000, some 4, some 10⟩,
        ⟨some 3600000, some 4, some 0⟩] ∧
    calculateBatteryMetrics
        [⟨some 0, some 5, some 0⟩, ⟨some 3600000, some 4, some 0⟩,
          ⟨some 3600000, some 4, some 10⟩] (some "lipo") 10 ≠
      calculateBatteryMetrics
        [⟨some 0, some 5, some 0⟩, ⟨some 3600000, some 4, some 10⟩,
          ⟨some 3600000, some 4, some 0⟩] (some "lipo") 10 :=
  ⟨by decide, of_decide_eq_true (by with_unfolding_all rfl)⟩

/-- C7 witness: the permutation-invariance theorem applied to a concrete
reordering with distinct parsed timestamps. -/
theorem c7_metrics_perm_invariant_witness :
    List.Perm
      [(⟨some 3600000, some 4, some 1⟩ : RawEntry), ⟨some 0, some 5, some 1⟩]
      [(⟨some 0, some 5, some 1⟩ : RawEntry), ⟨some 3600000, some 4, some 1⟩] ∧
    calculateBatteryMetrics
        [⟨some 3600000, some 4, some 1⟩, ⟨some 0, some 5, some 1⟩] (some "lipo") 10 =
      calculateBatteryMetrics
        [⟨some 0, some 5, some 1⟩, ⟨some 3600000, some 4, some 1⟩] (some "lipo") 10 :=
  ⟨by decide,
    c7_metrics_perm_invariant
      [⟨some 3600000, some 4, some 1⟩, ⟨some 0, some 5, some 1⟩]
      [⟨some 0, some 5, some 1⟩, ⟨some 3600000, some 4, some 1⟩]
      (some "lipo") 10
      (by decide) (by decide) (by decide)⟩

end BatteryVitals
